import Mathlib

/-!
Verification of the `Servo_Basic.ino` Arduino sketch.

The sketch drives one servo.  Its observable behaviour is a sequence of
effects: lines printed to the serial port, angle writes to the servo, and
blocking delays.  Each routine of the sketch is embedded as a function from
its inputs to the list of effects it performs, in order.  `Serial.parseInt`
results are modelled as the list of integer tokens read from the serial
buffer.  The C `int` loop variable of the descending sweep loop can go
negative, so loop angles are modelled as `Int`.
-/

namespace ServoBasic

/-- The `DEBUG` compile-time flag of the sketch (`#define DEBUG 1`). -/
def DEBUG : Nat := 1

/-- One observable effect of the sketch: a printed serial line, a servo
write, or a blocking delay in milliseconds. -/
inductive Ev where
  | print (line : String)
  | write (angle : Int)
  | wait (ms : Nat)
deriving DecidableEq, Repr

/-- The serial line printed before a servo write when `DEBUG` is set:
`"Setting angle to <N> degrees."`. -/
def settingMsg (angle : Int) : String :=
  "Setting angle to " ++ toString angle ++ " degrees."

/-- The serial line printed by `userInputOperations` for an out-of-range
angle: `"ERROR: The angle value of <N> is out of range."`. -/
def angleErr (angle : Int) : String :=
  "ERROR: The angle value of " ++ toString angle ++ " is out of range."

/-- The serial line printed by `servoSweep` for an out-of-range parameter:
`"ERROR: The <name> value of <N> is out of range."`. -/
def rangeErr (pname : String) (v : Nat) : String :=
  "ERROR: The " ++ pname ++ " value of " ++ toString v ++ " is out of range."

/-- The sweep description line printed by `servoSweep` when `DEBUG` is set. -/
def sweepDesc (startAngle stopAngle stepAngle stepTime : Nat) : String :=
  "Sweeping angle from " ++ toString startAngle ++ " to " ++ toString stopAngle ++
    " degrees in increments of " ++ toString stepAngle ++ " degree(s) with a " ++
    toString stepTime ++ " ms step time."

/-- The angles written to the servo in a trace, in order. -/
def trWrites (t : List Ev) : List Int :=
  t.filterMap fun e =>
    match e with
    | Ev.write a => some a
    | _ => none

/-- The serial lines printed in a trace, in order. -/
def trPrints (t : List Ev) : List String :=
  t.filterMap fun e =>
    match e with
    | Ev.print s => some s
    | _ => none

/-- The delay durations of a trace, in order. -/
def trWaits (t : List Ev) : List Nat :=
  t.filterMap fun e =>
    match e with
    | Ev.wait ms => some ms
    | _ => none

/-- The trace restricted to the device effects (writes and delays),
dropping the serial prints. -/
def motion (t : List Ev) : List Ev :=
  t.filter fun e =>
    match e with
    | Ev.print _ => false
    | _ => true

/-- Whether a serial line is an error line, i.e. starts with `ERROR`. -/
def isErrorLine (s : String) : Bool :=
  decide (s.data.take 5 = "ERROR".data)

/-- `basicOperations` from the sketch: four fixed writes, each followed by a
five-second delay; no serial traffic. -/
def basicOperations : List Ev :=
  [Ev.write 90, Ev.wait 5000,
   Ev.write 0, Ev.wait 5000,
   Ev.write 90, Ev.wait 5000,
   Ev.write 180, Ev.wait 5000]

/-- `userInputOperations` from the sketch, applied to the batch of integer
tokens currently available on the serial port.  Each iteration parses one
token; an out-of-range token prints the error line and returns, abandoning
the rest of the batch; a valid token prints the trace line (when `DEBUG` is
set) and writes the angle, and the loop continues. -/
def userInputOperations : List Int → List Ev
  | [] => []
  | angle :: rest =>
    if angle < 0 ∨ angle > 180 then
      [Ev.print (angleErr angle)]
    else
      (if DEBUG ≠ 0 then [Ev.print (settingMsg angle)] else []) ++
        Ev.write angle :: userInputOperations rest

/-- The ascending `for` loop of `servoSweep`
(`for (int angle = startAngle; angle <= stopAngle; angle += stepAngle)`).
The loop variable starts at `startAngle ≥ 0` and only increases, so `Nat`
models the C `int` faithfully here.  The `stepAngle = 0` guard is
unreachable: `servoSweep` rejects `stepAngle < 1` before the loop. -/
def sweepUpLoop (angle stopAngle stepAngle stepTime : Nat) : List Ev :=
  if h0 : stepAngle = 0 then []
  else if h1 : angle ≤ stopAngle then
    Ev.print (settingMsg angle) :: Ev.write angle :: Ev.wait stepTime ::
      sweepUpLoop (angle + stepAngle) stopAngle stepAngle stepTime
  else []
termination_by stopAngle + 1 - angle
decreasing_by omega

/-- The descending `for` loop of `servoSweep`
(`for (int angle = startAngle; angle >= stopAngle; angle -= stepAngle)`).
The C `int` loop variable can go negative before the loop exits, so the
angle is an `Int`.  The `stepAngle = 0` guard is unreachable:
`servoSweep` rejects `stepAngle < 1` before the loop. -/
def sweepDownLoop (angle : Int) (stopAngle stepAngle stepTime : Nat) : List Ev :=
  if h0 : stepAngle = 0 then []
  else if h1 : (stopAngle : Int) ≤ angle then
    Ev.print (settingMsg angle) :: Ev.write angle :: Ev.wait stepTime ::
      sweepDownLoop (angle - stepAngle) stopAngle stepAngle stepTime
  else []
termination_by (angle + 1 - stopAngle).toNat
decreasing_by omega

/-- `servoSweep` from the sketch.  The parameters are the `uint8_t` angle
arguments and the `unsigned long` step time.  Validation happens in source
order: `startAngle`, then `stopAngle`, then `stepAngle` against
`abs(stopAngle - startAngle)` (an `int` subtraction after integer
promotion); the first failing check prints its error line and returns.
Otherwise the description line is printed (`DEBUG` is set) and one of the
two loops runs. -/
def servoSweep (startAngle stopAngle stepAngle : Nat) (stepTime : Nat) : List Ev :=
  if startAngle > 180 then
    [Ev.print (rangeErr "startAngle" startAngle)]
  else if stopAngle > 180 then
    [Ev.print (rangeErr "stopAngle" stopAngle)]
  else if stepAngle < 1 ∨ stepAngle > ((stopAngle : Int) - (startAngle : Int)).natAbs then
    [Ev.print (rangeErr "stepAngle" stepAngle)]
  else
    (if DEBUG ≠ 0 then [Ev.print (sweepDesc startAngle stopAngle stepAngle stepTime)] else []) ++
      (if startAngle < stopAngle then
        sweepUpLoop startAngle stopAngle stepAngle stepTime
      else
        sweepDownLoop startAngle stopAngle stepAngle stepTime)

/-- The ascending angle sequence as the spec describes it: `startAngle`,
`startAngle + stepAngle`, `startAngle + 2*stepAngle`, ... for every value
not exceeding `stopAngle`. -/
def specAscendingWrites (startAngle stopAngle stepAngle : Nat) : List Int :=
  (List.range ((stopAngle - startAngle) / stepAngle + 1)).map
    fun k : Nat => (startAngle : Int) + (k : Int) * (stepAngle : Int)

/-- The descending angle sequence as the spec describes it: `startAngle`,
`startAngle - stepAngle`, `startAngle - 2*stepAngle`, ... for every value
not below `stopAngle`. -/
def specDescendingWrites (startAngle stopAngle stepAngle : Nat) : List Int :=
  (List.range ((startAngle - stopAngle) / stepAngle + 1)).map
    fun k : Nat => (startAngle : Int) - (k : Int) * (stepAngle : Int)

/-- One iteration of a sweep loop body: trace line, write, delay. -/
def stepBlock (stepTime : Nat) (a : Int) : List Ev :=
  [Ev.print (settingMsg a), Ev.write a, Ev.wait stepTime]

lemma sweepUpLoop_eq_nil (angle stopAngle stepAngle stepTime : Nat)
    (h : stopAngle < angle) :
    sweepUpLoop angle stopAngle stepAngle stepTime = [] := by
  rw [sweepUpLoop]
  simp [Nat.not_le.mpr h]

lemma sweepUpLoop_eq_blocks (angle stopAngle stepAngle stepTime : Nat)
    (hstep : 0 < stepAngle) (h : angle ≤ stopAngle) :
    sweepUpLoop angle stopAngle stepAngle stepTime =
      (((List.range ((stopAngle - angle) / stepAngle + 1)).map
        (fun k : Nat => (angle : Int) + (k : Int) * (stepAngle : Int))).map
          (stepBlock stepTime)).flatten := by
  revert h
  induction angle, stopAngle, stepAngle, stepTime using sweepUpLoop.induct with
  | case1 a b c =>
    exact absurd hstep (lt_irrefl 0)
  | case2 angle stopAngle stepAngle stepTime h0 h1 ih =>
    intro _
    rw [sweepUpLoop]
    simp only [dif_neg h0, dif_pos h1]
    by_cases h2 : angle + stepAngle ≤ stopAngle
    · rw [ih hstep h2]
      have hdiv : (stopAngle - angle) / stepAngle
          = (stopAngle - (angle + stepAngle)) / stepAngle + 1 := by
        have h3 : stepAngle ≤ stopAngle - angle := by omega
        have h4 : stopAngle - angle - stepAngle = stopAngle - (angle + stepAngle) := by omega
        rw [Nat.div_eq_sub_div (Nat.pos_of_ne_zero h0) h3, h4]
      have hinner :
          List.map (fun k : Nat => (angle : Int) + (k : Int) * (stepAngle : Int))
            (List.map Nat.succ
              (List.range ((stopAngle - (angle + stepAngle)) / stepAngle + 1)))
          = List.map
              (fun k : Nat => ((angle + stepAngle : Nat) : Int) + (k : Int) * (stepAngle : Int))
              (List.range ((stopAngle - (angle + stepAngle)) / stepAngle + 1)) := by
        rw [List.map_map]
        refine List.map_congr_left fun k _ => ?_
        simp only [Function.comp_apply, Nat.succ_eq_add_one]
        push_cast
        ring
      conv_rhs =>
        rw [hdiv, List.range_succ_eq_map, List.map_cons, hinner, List.map_cons,
          List.flatten_cons]
      simp [stepBlock]
    · rw [sweepUpLoop_eq_nil _ _ _ _ (by omega)]
      have hdiv0 : (stopAngle - angle) / stepAngle = 0 := Nat.div_eq_of_lt (by omega)
      rw [hdiv0]
      have hr1 : List.range 1 = [0] := rfl
      simp [stepBlock, hr1]
  | case3 angle stopAngle stepAngle stepTime h0 h1 =>
    intro h
    omega

lemma sweepDownLoop_eq_nil (angle : Int) (stopAngle stepAngle stepTime : Nat)
    (h : angle < (stopAngle : Int)) :
    sweepDownLoop angle stopAngle stepAngle stepTime = [] := by
  rw [sweepDownLoop]
  simp [not_le.mpr h]

lemma sweepDownLoop_eq_blocks (angle : Int) (stopAngle stepAngle stepTime : Nat)
    (hstep : 0 < stepAngle) (h : (stopAngle : Int) ≤ angle) :
    sweepDownLoop angle stopAngle stepAngle stepTime =
      (((List.range ((angle - stopAngle).toNat / stepAngle + 1)).map
        (fun k : Nat => angle - (k : Int) * (stepAngle : Int))).map
          (stepBlock stepTime)).flatten := by
  revert h
  induction angle, stopAngle, stepAngle, stepTime using sweepDownLoop.induct with
  | case1 a b c =>
    exact absurd hstep (lt_irrefl 0)
  | case2 angle stopAngle stepAngle stepTime h0 h1 ih =>
    intro _
    rw [sweepDownLoop]
    simp only [dif_neg h0, dif_pos h1]
    by_cases h2 : (stopAngle : Int) ≤ angle - stepAngle
    · rw [ih hstep h2]
      have hdiv : (angle - stopAngle).toNat / stepAngle
          = (angle - stepAngle - stopAngle).toNat / stepAngle + 1 := by
        have h3 : stepAngle ≤ (angle - stopAngle).toNat := by omega
        have h4 : (angle - stopAngle).toNat - stepAngle
            = (angle - stepAngle - stopAngle).toNat := by omega
        rw [Nat.div_eq_sub_div (Nat.pos_of_ne_zero h0) h3, h4]
      have hinner :
          List.map (fun k : Nat => angle - (k : Int) * (stepAngle : Int))
            (List.map Nat.succ
              (List.range ((angle - stepAngle - stopAngle).toNat / stepAngle + 1)))
          = List.map (fun k : Nat => (angle - (stepAngle : Int)) - (k : Int) * (stepAngle : Int))
              (List.range ((angle - stepAngle - stopAngle).toNat / stepAngle + 1)) := by
        rw [List.map_map]
        refine List.map_congr_left fun k _ => ?_
        simp only [Function.comp_apply, Nat.succ_eq_add_one]
        push_cast
        ring
      conv_rhs =>
        rw [hdiv, List.range_succ_eq_map, List.map_cons, hinner, List.map_cons,
          List.flatten_cons]
      simp [stepBlock]
    · rw [sweepDownLoop_eq_nil _ _ _ _ (by omega)]
      have hdiv0 : (angle - stopAngle).toNat / stepAngle = 0 :=
        Nat.div_eq_of_lt (by omega)
      rw [hdiv0]
      have hr1 : List.range 1 = [0] := rfl
      simp [stepBlock, hr1]
  | case3 angle stopAngle stepAngle stepTime h0 h1 =>
    intro h
    omega

lemma servoSweep_valid_up (startAngle stopAngle stepAngle stepTime : Nat)
    (h1 : startAngle < stopAngle) (h2 : stopAngle ≤ 180)
    (h3 : 0 < stepAngle) (h4 : stepAngle ≤ stopAngle - startAngle) :
    servoSweep startAngle stopAngle stepAngle stepTime =
      Ev.print (sweepDesc startAngle stopAngle stepAngle stepTime) ::
        ((specAscendingWrites startAngle stopAngle stepAngle).map
          (stepBlock stepTime)).flatten := by
  have hstart : ¬ startAngle > 180 := by omega
  have hstop : ¬ stopAngle > 180 := by omega
  have hstep : ¬ (stepAngle < 1 ∨
      stepAngle > ((stopAngle : Int) - (startAngle : Int)).natAbs) := by
    push_neg
    constructor
    · omega
    · omega
  rw [servoSweep, if_neg hstart, if_neg hstop, if_neg hstep, if_pos h1]
  rw [sweepUpLoop_eq_blocks _ _ _ _ h3 (Nat.le_of_lt h1)]
  simp [DEBUG, specAscendingWrites]

lemma servoSweep_valid_down (startAngle stopAngle stepAngle stepTime : Nat)
    (h1 : stopAngle < startAngle) (h2 : startAngle ≤ 180)
    (h3 : 0 < stepAngle) (h4 : stepAngle ≤ startAngle - stopAngle) :
    servoSweep startAngle stopAngle stepAngle stepTime =
      Ev.print (sweepDesc startAngle stopAngle stepAngle stepTime) ::
        ((specDescendingWrites startAngle stopAngle stepAngle).map
          (stepBlock stepTime)).flatten := by
  have hstart : ¬ startAngle > 180 := by omega
  have hstop : ¬ stopAngle > 180 := by omega
  have hstep : ¬ (stepAngle < 1 ∨
      stepAngle > ((stopAngle : Int) - (startAngle : Int)).natAbs) := by
    push_neg
    constructor
    · omega
    · omega
  have hnotlt : ¬ startAngle < stopAngle := by omega
  rw [servoSweep, if_neg hstart, if_neg hstop, if_neg hstep, if_neg hnotlt]
  rw [sweepDownLoop_eq_blocks _ _ _ _ h3 (by exact_mod_cast Nat.le_of_lt h1)]
  have hcount : (((startAngle : Int)) - (stopAngle : Int)).toNat = startAngle - stopAngle := by
    omega
  rw [hcount]
  simp [DEBUG, specDescendingWrites]

lemma trWrites_blocks (as : List Int) (stepTime : Nat) :
    trWrites ((as.map (stepBlock stepTime)).flatten) = as := by
  induction as with
  | nil => rfl
  | cons a l ih =>
    simp only [List.map_cons, List.flatten_cons, trWrites, List.filterMap_append] at ih ⊢
    simp only [stepBlock, List.filterMap_cons, List.filterMap_nil]
    simpa using ih

lemma trPrints_blocks (as : List Int) (stepTime : Nat) :
    trPrints ((as.map (stepBlock stepTime)).flatten) = as.map settingMsg := by
  induction as with
  | nil => rfl
  | cons a l ih =>
    simp only [List.map_cons, List.flatten_cons, trPrints, List.filterMap_append] at ih ⊢
    simp only [stepBlock, List.filterMap_cons, List.filterMap_nil]
    simpa using ih

lemma trWaits_blocks (as : List Int) (stepTime : Nat) :
    trWaits ((as.map (stepBlock stepTime)).flatten) = as.map (fun _ => stepTime) := by
  induction as with
  | nil => rfl
  | cons a l ih =>
    simp only [List.map_cons, List.flatten_cons, trWaits, List.filterMap_append] at ih ⊢
    simp only [stepBlock, List.filterMap_cons, List.filterMap_nil]
    simpa using ih

lemma motion_blocks (as : List Int) (stepTime : Nat) :
    motion ((as.map (stepBlock stepTime)).flatten) =
      ((as.map (fun a => [Ev.write a, Ev.wait stepTime]))).flatten := by
  induction as with
  | nil => rfl
  | cons a l ih =>
    simp only [List.map_cons, List.flatten_cons, motion, List.filter_append] at ih ⊢
    simp only [stepBlock, List.filter_cons, List.filter_nil]
    simpa using ih

@[simp] lemma trWrites_nil : trWrites [] = [] := rfl

@[simp] lemma trWrites_print_cons (s : String) (l : List Ev) :
    trWrites (Ev.print s :: l) = trWrites l := rfl

@[simp] lemma trWrites_write_cons (a : Int) (l : List Ev) :
    trWrites (Ev.write a :: l) = a :: trWrites l := rfl

@[simp] lemma trWrites_wait_cons (ms : Nat) (l : List Ev) :
    trWrites (Ev.wait ms :: l) = trWrites l := rfl

@[simp] lemma trPrints_nil : trPrints [] = [] := rfl

@[simp] lemma trPrints_print_cons (s : String) (l : List Ev) :
    trPrints (Ev.print s :: l) = s :: trPrints l := rfl

@[simp] lemma trPrints_write_cons (a : Int) (l : List Ev) :
    trPrints (Ev.write a :: l) = trPrints l := rfl

@[simp] lemma trPrints_wait_cons (ms : Nat) (l : List Ev) :
    trPrints (Ev.wait ms :: l) = trPrints l := rfl

@[simp] lemma trWaits_nil : trWaits [] = [] := rfl

@[simp] lemma trWaits_print_cons (s : String) (l : List Ev) :
    trWaits (Ev.print s :: l) = trWaits l := rfl

@[simp] lemma trWaits_write_cons (a : Int) (l : List Ev) :
    trWaits (Ev.write a :: l) = trWaits l := rfl

@[simp] lemma trWaits_wait_cons (ms : Nat) (l : List Ev) :
    trWaits (Ev.wait ms :: l) = ms :: trWaits l := rfl

@[simp] lemma motion_nil : motion [] = [] := rfl

@[simp] lemma motion_print_cons (s : String) (l : List Ev) :
    motion (Ev.print s :: l) = motion l := rfl

@[simp] lemma motion_write_cons (a : Int) (l : List Ev) :
    motion (Ev.write a :: l) = Ev.write a :: motion l := rfl

@[simp] lemma motion_wait_cons (ms : Nat) (l : List Ev) :
    motion (Ev.wait ms :: l) = Ev.wait ms :: motion l := rfl

lemma trWrites_append (s t : List Ev) : trWrites (s ++ t) = trWrites s ++ trWrites t := by
  simp [trWrites, List.filterMap_append]

lemma trPrints_append (s t : List Ev) : trPrints (s ++ t) = trPrints s ++ trPrints t := by
  simp [trPrints, List.filterMap_append]

lemma isErrorLine_settingMsg (a : Int) : isErrorLine (settingMsg a) = false := by
  have h : (settingMsg a).data.take 5 = "Setti".data := by
    simp only [settingMsg, String.data_append, List.append_assoc]
    rw [List.take_append_of_le_length (by decide)]
    decide
  simp only [isErrorLine, h]
  decide

lemma isErrorLine_sweepDesc (a b c d : Nat) : isErrorLine (sweepDesc a b c d) = false := by
  have h : (sweepDesc a b c d).data.take 5 = "Sweep".data := by
    simp only [sweepDesc, String.data_append, List.append_assoc]
    rw [List.take_append_of_le_length (by decide)]
    decide
  simp only [isErrorLine, h]
  decide

lemma isErrorLine_angleErr (a : Int) : isErrorLine (angleErr a) = true := by
  have h : (angleErr a).data.take 5 = "ERROR".data := by
    simp only [angleErr, String.data_append, List.append_assoc]
    rw [List.take_append_of_le_length (by decide)]
    decide
  simp only [isErrorLine, h]
  decide

lemma isErrorLine_rangeErr (p : String) (v : Nat) : isErrorLine (rangeErr p v) = true := by
  have h : (rangeErr p v).data.take 5 = "ERROR".data := by
    simp only [rangeErr, String.data_append, List.append_assoc]
    rw [List.take_append_of_le_length (by decide)]
    decide
  simp only [isErrorLine, h]
  decide

lemma userInput_cons_valid (A : Int) (rest : List Int) (h : ¬ (A < 0 ∨ A > 180)) :
    userInputOperations (A :: rest)
      = Ev.print (settingMsg A) :: Ev.write A :: userInputOperations rest := by
  simp [userInputOperations, h, DEBUG]

lemma userInput_valid_batch (pre : List Int) (hpre : ∀ x ∈ pre, 0 ≤ x ∧ x ≤ 180)
    (rest : List Int) :
    userInputOperations (pre ++ rest)
      = (pre.map (fun a => [Ev.print (settingMsg a), Ev.write a])).flatten
        ++ userInputOperations rest := by
  induction pre with
  | nil => simp
  | cons x l ih =>
    have hx : ¬ (x < 0 ∨ x > 180) := by
      have := hpre x (List.mem_cons_self x l)
      omega
    simp only [List.cons_append]
    rw [userInput_cons_valid _ _ hx, ih (fun y hy => hpre y (List.mem_cons_of_mem x hy))]
    simp

lemma trWrites_blocks2 (as : List Int) :
    trWrites ((as.map (fun a => [Ev.print (settingMsg a), Ev.write a])).flatten) = as := by
  induction as with
  | nil => rfl
  | cons a l ih =>
    simp only [List.map_cons, List.flatten_cons]
    rw [trWrites_append]
    simp [ih]

lemma trPrints_blocks2 (as : List Int) :
    trPrints ((as.map (fun a => [Ev.print (settingMsg a), Ev.write a])).flatten)
      = as.map settingMsg := by
  induction as with
  | nil => rfl
  | cons a l ih =>
    simp only [List.map_cons, List.flatten_cons]
    rw [trPrints_append]
    simp [ih]

lemma getLast?_range_map (n : Nat) (f : Nat → Int) :
    ((List.range (n + 1)).map f).getLast? = some (f n) := by
  rw [List.range_succ, List.map_append]
  simp

/-- C1: for `startAngle < stopAngle ≤ 180` and `1 ≤ stepAngle ≤ stopAngle -
startAngle`, `servoSweep` writes the ascending sequence `startAngle`,
`startAngle + stepAngle`, ... for every value not exceeding `stopAngle`,
waits `stepTime` milliseconds after each write, and prints no error line. -/
theorem servoSweep_ascending (startAngle stopAngle stepAngle stepTime : Nat)
    (h1 : startAngle < stopAngle) (h2 : stopAngle ≤ 180)
    (h3 : 1 ≤ stepAngle) (h4 : stepAngle ≤ stopAngle - startAngle) :
    trWrites (servoSweep startAngle stopAngle stepAngle stepTime) =
      specAscendingWrites startAngle stopAngle stepAngle
    ∧ motion (servoSweep startAngle stopAngle stepAngle stepTime) =
      ((specAscendingWrites startAngle stopAngle stepAngle).map
        (fun a => [Ev.write a, Ev.wait stepTime])).flatten
    ∧ ∀ s ∈ trPrints (servoSweep startAngle stopAngle stepAngle stepTime),
        isErrorLine s = false := by
  rw [servoSweep_valid_up startAngle stopAngle stepAngle stepTime h1 h2 h3 h4]
  refine ⟨?_, ?_, ?_⟩
  · simp only [trWrites_print_cons, trWrites_blocks]
  · simp only [motion_print_cons, motion_blocks]
  · simp only [trPrints_print_cons, trPrints_blocks]
    intro s hs
    rcases List.mem_cons.mp hs with h | h
    · rw [h]
      exact isErrorLine_sweepDesc _ _ _ _
    · obtain ⟨a, _, rfl⟩ := List.mem_map.mp h
      exact isErrorLine_settingMsg a

set_option maxRecDepth 8000 in
/-- Witness for C1 at the sweep `servoSweep(45, 135, 15, 1000)` of the spec:
seven writes `45, 60, 75, 90, 105, 120, 135`. -/
theorem servoSweep_ascending_witness :
    (45 < 135 ∧ (135 : Nat) ≤ 180 ∧ 1 ≤ 15 ∧ 15 ≤ 135 - 45)
    ∧ trWrites (servoSweep 45 135 15 1000) = [45, 60, 75, 90, 105, 120, 135]
    ∧ trWrites (servoSweep 0 180 1 15) = (List.range 181).map (fun k : Nat => (k : Int)) := by
  refine ⟨⟨by decide, by decide, by decide, by decide⟩, ?_, ?_⟩
  · rw [(servoSweep_ascending 45 135 15 1000 (by decide) (by decide) (by decide)
      (by decide)).1]
    decide
  · rw [(servoSweep_ascending 0 180 1 15 (by decide) (by decide) (by decide)
      (by decide)).1]
    decide

/-- C2: for `stopAngle < startAngle ≤ 180` and `1 ≤ stepAngle ≤ startAngle -
stopAngle`, `servoSweep` writes the descending sequence `startAngle`,
`startAngle - stepAngle`, ... for every value not below `stopAngle`, waits
`stepTime` milliseconds after each write, and prints no error line. -/
theorem servoSweep_descending (startAngle stopAngle stepAngle stepTime : Nat)
    (h1 : stopAngle < startAngle) (h2 : startAngle ≤ 180)
    (h3 : 1 ≤ stepAngle) (h4 : stepAngle ≤ startAngle - stopAngle) :
    trWrites (servoSweep startAngle stopAngle stepAngle stepTime) =
      specDescendingWrites startAngle stopAngle stepAngle
    ∧ motion (servoSweep startAngle stopAngle stepAngle stepTime) =
      ((specDescendingWrites startAngle stopAngle stepAngle).map
        (fun a => [Ev.write a, Ev.wait stepTime])).flatten
    ∧ ∀ s ∈ trPrints (servoSweep startAngle stopAngle stepAngle stepTime),
        isErrorLine s = false := by
  rw [servoSweep_valid_down startAngle stopAngle stepAngle stepTime h1 h2 h3 h4]
  refine ⟨?_, ?_, ?_⟩
  · simp only [trWrites_print_cons, trWrites_blocks]
  · simp only [motion_print_cons, motion_blocks]
  · simp only [trPrints_print_cons, trPrints_blocks]
    intro s hs
    rcases List.mem_cons.mp hs with h | h
    · rw [h]
      exact isErrorLine_sweepDesc _ _ _ _
    · obtain ⟨a, _, rfl⟩ := List.mem_map.mp h
      exact isErrorLine_settingMsg a

set_option maxRecDepth 8000 in
/-- Witness for C2 at the sweep `servoSweep(180, 0, 45, 1000)` of the spec:
five writes `180, 135, 90, 45, 0`. -/
theorem servoSweep_descending_witness :
    (0 < 180 ∧ (180 : Nat) ≤ 180 ∧ 1 ≤ 45 ∧ 45 ≤ 180 - 0)
    ∧ trWrites (servoSweep 180 0 45 1000) = [180, 135, 90, 45, 0]
    ∧ trWrites (servoSweep 180 0 1 15)
        = (List.range 181).map (fun k : Nat => (180 : Int) - (k : Int)) := by
  refine ⟨⟨by decide, by decide, by decide, by decide⟩, ?_, ?_⟩
  · rw [(servoSweep_descending 180 0 45 1000 (by decide) (by decide) (by decide)
      (by decide)).1]
    decide
  · rw [(servoSweep_descending 180 0 1 15 (by decide) (by decide) (by decide)
      (by decide)).1]
    decide

/-- C3: whenever a `servoSweep` parameter is out of range (`startAngle > 180`,
`stopAngle > 180`, `stepAngle < 1`, or `stepAngle > |stopAngle - startAngle|`),
the call performs zero writes and zero delays and prints exactly one
out-of-range error line naming an offending parameter. -/
theorem servoSweep_invalid_params (startAngle stopAngle stepAngle stepTime : Nat)
    (h : startAngle > 180 ∨ stopAngle > 180 ∨ stepAngle < 1 ∨
      stepAngle > ((stopAngle : Int) - (startAngle : Int)).natAbs) :
    trWrites (servoSweep startAngle stopAngle stepAngle stepTime) = []
    ∧ trWaits (servoSweep startAngle stopAngle stepAngle stepTime) = []
    ∧ ∃ p v, trPrints (servoSweep startAngle stopAngle stepAngle stepTime) = [rangeErr p v]
        ∧ isErrorLine (rangeErr p v) = true
        ∧ ((p = "startAngle" ∧ v = startAngle ∧ startAngle > 180)
          ∨ (p = "stopAngle" ∧ v = stopAngle ∧ stopAngle > 180)
          ∨ (p = "stepAngle" ∧ v = stepAngle ∧ (stepAngle < 1 ∨
              stepAngle > ((stopAngle : Int) - (startAngle : Int)).natAbs))) := by
  by_cases hs : startAngle > 180
  · rw [servoSweep, if_pos hs]
    exact ⟨rfl, rfl, "startAngle", startAngle, rfl, isErrorLine_rangeErr _ _,
      Or.inl ⟨rfl, rfl, hs⟩⟩
  · by_cases hp : stopAngle > 180
    · rw [servoSweep, if_neg hs, if_pos hp]
      exact ⟨rfl, rfl, "stopAngle", stopAngle, rfl, isErrorLine_rangeErr _ _,
        Or.inr (Or.inl ⟨rfl, rfl, hp⟩)⟩
    · have hst : stepAngle < 1 ∨
          stepAngle > ((stopAngle : Int) - (startAngle : Int)).natAbs := by
        rcases h with h | h | h | h
        · exact absurd h hs
        · exact absurd h hp
        · exact Or.inl h
        · exact Or.inr h
      rw [servoSweep, if_neg hs, if_neg hp, if_pos hst]
      exact ⟨rfl, rfl, "stepAngle", stepAngle, rfl, isErrorLine_rangeErr _ _,
        Or.inr (Or.inr ⟨rfl, rfl, hst⟩)⟩

/-- Witness for C3 at `servoSweep(200, 0, 1, 15)`: `startAngle` is out of
range, and the call performs no write and no delay. -/
theorem servoSweep_invalid_params_witness :
    ((200 : Nat) > 180 ∨ (0 : Nat) > 180 ∨ (1 : Nat) < 1 ∨
      (1 : Nat) > (((0 : Nat) : Int) - ((200 : Nat) : Int)).natAbs)
    ∧ trWrites (servoSweep 200 0 1 15) = []
    ∧ trWaits (servoSweep 200 0 1 15) = [] := by
  refine ⟨Or.inl (by decide), ?_, ?_⟩
  · exact (servoSweep_invalid_params 200 0 1 15 (Or.inl (by decide))).1
  · exact (servoSweep_invalid_params 200 0 1 15 (Or.inl (by decide))).2.1

/-- C8: `basicOperations` writes exactly `90, 0, 90, 180` in that order, each
write followed by a 5000 ms delay, and prints nothing (it also takes no
input: it is a closed constant trace). -/
theorem basicOperations_spec :
    basicOperations = [Ev.write 90, Ev.wait 5000, Ev.write 0, Ev.wait 5000,
      Ev.write 90, Ev.wait 5000, Ev.write 180, Ev.wait 5000]
    ∧ trWrites basicOperations = [90, 0, 90, 180]
    ∧ trWaits basicOperations = [5000, 5000, 5000, 5000]
    ∧ trPrints basicOperations = [] :=
  ⟨rfl, rfl, rfl, rfl⟩

/-- C4: when the first out-of-range token `A` of the batch is reached,
`userInputOperations` prints exactly the angle error line for `A`, writes
nothing for `A`, and abandons the rest of the batch: the result does not
depend on the tokens queued after `A`. -/
theorem userInput_out_of_range (pre rest : List Int) (A : Int)
    (hpre : ∀ x ∈ pre, 0 ≤ x ∧ x ≤ 180) (hA : A < 0 ∨ A > 180) :
    userInputOperations (pre ++ A :: rest)
      = (pre.map (fun a => [Ev.print (settingMsg a), Ev.write a])).flatten
        ++ [Ev.print (angleErr A)]
    ∧ trWrites (userInputOperations (pre ++ A :: rest)) = pre
    ∧ trPrints (userInputOperations (pre ++ A :: rest))
        = pre.map settingMsg ++ [angleErr A]
    ∧ isErrorLine (angleErr A) = true := by
  have herr : userInputOperations (A :: rest) = [Ev.print (angleErr A)] := by
    simp [userInputOperations, hA]
  have hmain : userInputOperations (pre ++ A :: rest)
      = (pre.map (fun a => [Ev.print (settingMsg a), Ev.write a])).flatten
        ++ [Ev.print (angleErr A)] := by
    rw [userInput_valid_batch pre hpre (A :: rest), herr]
  refine ⟨hmain, ?_, ?_, isErrorLine_angleErr A⟩
  · rw [hmain, trWrites_append, trWrites_blocks2]
    simp
  · rw [hmain, trPrints_append, trPrints_blocks2]
    simp

/-- Witness for C4: batch `10, 181, 5` writes `10`, prints the trace line for
`10` and then the error line for `181`, and never parses `5`. -/
theorem userInput_out_of_range_witness :
    ((∀ x ∈ ([10] : List Int), 0 ≤ x ∧ x ≤ 180)
      ∧ ((181 : Int) < 0 ∨ (181 : Int) > 180))
    ∧ trWrites (userInputOperations ([10] ++ 181 :: [5])) = [10]
    ∧ trPrints (userInputOperations ([10] ++ 181 :: [5]))
        = [settingMsg 10, angleErr 181] := by
  have h := userInput_out_of_range [10] [5] 181
    (by
      intro x hx
      simp only [List.mem_singleton] at hx
      subst hx
      exact ⟨by decide, by decide⟩)
    (Or.inr (by decide))
  refine ⟨⟨?_, Or.inr (by decide)⟩, h.2.1, ?_⟩
  · intro x hx
    simp only [List.mem_singleton] at hx
    subst hx
    exact ⟨by decide, by decide⟩
  · rw [h.2.2.1]
    rfl

/-- C5: a parsed angle `A` with `0 ≤ A ≤ 180` is written to the device right
after its trace line, that line is not an error line, and the batch
continues. -/
theorem userInput_in_range (A : Int) (rest : List Int) (h0 : 0 ≤ A) (h1 : A ≤ 180) :
    userInputOperations (A :: rest)
      = Ev.print (settingMsg A) :: Ev.write A :: userInputOperations rest
    ∧ isErrorLine (settingMsg A) = false :=
  ⟨userInput_cons_valid A rest (by omega), isErrorLine_settingMsg A⟩

/-- Witness for C5 at angle `90`: the token is written with its trace line. -/
theorem userInput_in_range_witness :
    ((0 : Int) ≤ 90 ∧ (90 : Int) ≤ 180)
    ∧ userInputOperations [90] = [Ev.print (settingMsg 90), Ev.write 90] := by
  refine ⟨⟨by decide, by decide⟩, ?_⟩
  rw [(userInput_in_range 90 [] (by decide) (by decide)).1]
  rfl

/-- C9: commanding the same valid angle `A` repeatedly produces, on each
repetition, the identical trace line and the identical write of `A`: the
handler keeps no state between tokens. -/
theorem userInput_idempotent (A : Int) (n : Nat) (h0 : 0 ≤ A) (h1 : A ≤ 180) :
    userInputOperations (List.replicate n A)
      = (List.replicate n [Ev.print (settingMsg A), Ev.write A]).flatten
    ∧ trWrites (userInputOperations (List.replicate n A)) = List.replicate n A := by
  have hmain : ∀ m : Nat, userInputOperations (List.replicate m A)
      = (List.replicate m [Ev.print (settingMsg A), Ev.write A]).flatten := by
    intro m
    induction m with
    | zero => rfl
    | succ k ih =>
      rw [List.replicate_succ, userInput_cons_valid A _ (by omega), ih]
      rfl
  refine ⟨hmain n, ?_⟩
  rw [hmain n]
  induction n with
  | zero => rfl
  | succ k ih =>
    simp only [List.replicate_succ, List.flatten_cons, trWrites_append, ih]
    rfl

/-- Witness for C9 at angle `90` repeated three times: three identical
writes. -/
theorem userInput_idempotent_witness :
    ((0 : Int) ≤ 90 ∧ (90 : Int) ≤ 180)
    ∧ trWrites (userInputOperations (List.replicate 3 (90 : Int)))
        = List.replicate 3 (90 : Int) :=
  ⟨⟨by decide, by decide⟩, (userInput_idempotent 90 3 (by decide) (by decide)).2⟩

/-- C10: every angle any of the three routines ever passes to the device
write lies in `[0, 180]`: the input bounds check, the sweep validation with
the loop bounds, and the fixed demo constants guarantee it. -/
theorem writes_within_range :
    (∀ tokens : List Int, ∀ a ∈ trWrites (userInputOperations tokens),
      0 ≤ a ∧ a ≤ 180)
    ∧ (∀ startAngle stopAngle stepAngle stepTime : Nat,
        ∀ a ∈ trWrites (servoSweep startAngle stopAngle stepAngle stepTime),
          0 ≤ a ∧ a ≤ 180)
    ∧ (∀ a ∈ trWrites basicOperations, 0 ≤ a ∧ a ≤ 180) := by
  refine ⟨?_, ?_, ?_⟩
  · intro tokens
    induction tokens with
    | nil => intro a ha; simp [userInputOperations] at ha
    | cons x l ih =>
      by_cases hx : x < 0 ∨ x > 180
      · intro a ha
        have hcase : userInputOperations (x :: l) = [Ev.print (angleErr x)] := by
          simp [userInputOperations, hx]
        rw [hcase] at ha
        simp at ha
      · intro a ha
        rw [userInput_cons_valid x l hx] at ha
        simp only [trWrites_print_cons, trWrites_write_cons, List.mem_cons] at ha
        rcases ha with rfl | ha
        · omega
        · exact ih a ha
  · intro startAngle stopAngle stepAngle stepTime a ha
    by_cases hs : startAngle > 180
    · rw [servoSweep, if_pos hs] at ha
      simp at ha
    · by_cases hp : stopAngle > 180
      · rw [servoSweep, if_neg hs, if_pos hp] at ha
        simp at ha
      · by_cases hst : stepAngle < 1 ∨
            stepAngle > ((stopAngle : Int) - (startAngle : Int)).natAbs
        · rw [servoSweep, if_neg hs, if_neg hp, if_pos hst] at ha
          simp at ha
        · push_neg at hst
          obtain ⟨hst1, hst2⟩ := hst
          rcases Nat.lt_trichotomy startAngle stopAngle with hlt | heq | hgt
          · have h4 : stepAngle ≤ stopAngle - startAngle := by omega
            rw [servoSweep_valid_up startAngle stopAngle stepAngle stepTime hlt
              (by omega) hst1 h4] at ha
            simp only [trWrites_print_cons, trWrites_blocks] at ha
            simp only [specAscendingWrites, List.mem_map, List.mem_range] at ha
            obtain ⟨k, hk, rfl⟩ := ha
            have hmul : k * stepAngle ≤ stopAngle - startAngle :=
              le_trans (Nat.mul_le_mul_right stepAngle (by omega))
                (Nat.div_mul_le_self (stopAngle - startAngle) stepAngle)
            constructor <;> (simp only [← Nat.cast_mul]; omega)
          · exact absurd hst2 (by omega)
          · have h4 : stepAngle ≤ startAngle - stopAngle := by omega
            rw [servoSweep_valid_down startAngle stopAngle stepAngle stepTime hgt
              (by omega) hst1 h4] at ha
            simp only [trWrites_print_cons, trWrites_blocks] at ha
            simp only [specDescendingWrites, List.mem_map, List.mem_range] at ha
            obtain ⟨k, hk, rfl⟩ := ha
            have hmul : k * stepAngle ≤ startAngle - stopAngle :=
              le_trans (Nat.mul_le_mul_right stepAngle (by omega))
                (Nat.div_mul_le_self (startAngle - stopAngle) stepAngle)
            constructor <;> (simp only [← Nat.cast_mul]; omega)
  · intro a ha
    have hb : trWrites basicOperations = [90, 0, 90, 180] := rfl
    rw [hb] at ha
    simp at ha
    rcases ha with rfl | rfl | rfl | rfl <;> exact ⟨by decide, by decide⟩

/-- Witness for C10 at the valid token `90`: it is written and in range. -/
theorem writes_within_range_witness :
    (90 : Int) ∈ trWrites (userInputOperations [90])
    ∧ (0 ≤ (90 : Int) ∧ (90 : Int) ≤ 180) :=
  ⟨by decide, writes_within_range.1 [90] 90 (by decide)⟩

/-- C6: on a valid sweep whose step does not evenly divide the range, the
last write falls short of `stopAngle` by the remainder, lies strictly
between the two endpoint angles, and `stopAngle` itself is never written. -/
theorem servoSweep_no_snapping (startAngle stopAngle stepAngle stepTime : Nat)
    (hs : startAngle ≤ 180) (hp : stopAngle ≤ 180) (h3 : 1 ≤ stepAngle)
    (h4 : stepAngle ≤ ((stopAngle : Int) - (startAngle : Int)).natAbs)
    (hnd : ¬ stepAngle ∣ ((stopAngle : Int) - (startAngle : Int)).natAbs) :
    ∃ L : Int,
      (trWrites (servoSweep startAngle stopAngle stepAngle stepTime)).getLast? = some L
      ∧ (if startAngle < stopAngle
          then L = (stopAngle : Int)
              - ((((stopAngle : Int) - (startAngle : Int)).natAbs % stepAngle : Nat) : Int)
            ∧ (startAngle : Int) < L ∧ L < (stopAngle : Int)
          else L = (stopAngle : Int)
              + ((((stopAngle : Int) - (startAngle : Int)).natAbs % stepAngle : Nat) : Int)
            ∧ (stopAngle : Int) < L ∧ L < (startAngle : Int))
      ∧ (stopAngle : Int) ∉ trWrites (servoSweep startAngle stopAngle stepAngle stepTime) := by
  rcases Nat.lt_trichotomy startAngle stopAngle with hlt | heq | hgt
  · have hab : ((stopAngle : Int) - (startAngle : Int)).natAbs
        = stopAngle - startAngle := by omega
    rw [hab] at h4 hnd ⊢
    have hwr : trWrites (servoSweep startAngle stopAngle stepAngle stepTime)
        = specAscendingWrites startAngle stopAngle stepAngle := by
      rw [servoSweep_valid_up startAngle stopAngle stepAngle stepTime hlt hp h3 h4]
      simp only [trWrites_print_cons, trWrites_blocks]
    have hq : (stopAngle - startAngle) / stepAngle * stepAngle
        + (stopAngle - startAngle) % stepAngle = stopAngle - startAngle := by
      rw [Nat.mul_comm]
      exact Nat.div_add_mod _ _
    have hr0 : (stopAngle - startAngle) % stepAngle ≠ 0 := by
      intro hz
      exact hnd (Nat.dvd_of_mod_eq_zero hz)
    have hrlt : (stopAngle - startAngle) % stepAngle < stepAngle :=
      Nat.mod_lt _ (by omega)
    have hq1 : stepAngle
        ≤ (stopAngle - startAngle) / stepAngle * stepAngle := by
      calc stepAngle = 1 * stepAngle := (one_mul _).symm
        _ ≤ _ := Nat.mul_le_mul_right _ ((Nat.one_le_div_iff (by omega)).mpr h4)
    refine ⟨(startAngle : Int)
      + (((stopAngle - startAngle) / stepAngle : Nat) : Int) * ((stepAngle : Nat) : Int),
      ?_, ?_, ?_⟩
    · rw [hwr, specAscendingWrites]
      exact getLast?_range_map _ _
    · rw [if_pos hlt]
      refine ⟨?_, ?_, ?_⟩ <;> (simp only [← Nat.cast_mul]; omega)
    · rw [hwr]
      intro hmem
      simp only [specAscendingWrites, List.mem_map, List.mem_range] at hmem
      obtain ⟨k, hk, hkeq⟩ := hmem
      have hkeq2 : startAngle + k * stepAngle = stopAngle := by
        simp only [← Nat.cast_mul] at hkeq
        omega
      apply hnd
      refine ⟨k, ?_⟩
      rw [Nat.mul_comm]
      omega
  · exact absurd h4 (by omega)
  · have hab : ((stopAngle : Int) - (startAngle : Int)).natAbs
        = startAngle - stopAngle := by omega
    rw [hab] at h4 hnd ⊢
    have hwr : trWrites (servoSweep startAngle stopAngle stepAngle stepTime)
        = specDescendingWrites startAngle stopAngle stepAngle := by
      rw [servoSweep_valid_down startAngle stopAngle stepAngle stepTime hgt hs h3 h4]
      simp only [trWrites_print_cons, trWrites_blocks]
    have hq : (startAngle - stopAngle) / stepAngle * stepAngle
        + (startAngle - stopAngle) % stepAngle = startAngle - stopAngle := by
      rw [Nat.mul_comm]
      exact Nat.div_add_mod _ _
    have hr0 : (startAngle - stopAngle) % stepAngle ≠ 0 := by
      intro hz
      exact hnd (Nat.dvd_of_mod_eq_zero hz)
    have hrlt : (startAngle - stopAngle) % stepAngle < stepAngle :=
      Nat.mod_lt _ (by omega)
    have hq1 : stepAngle
        ≤ (startAngle - stopAngle) / stepAngle * stepAngle := by
      calc stepAngle = 1 * stepAngle := (one_mul _).symm
        _ ≤ _ := Nat.mul_le_mul_right _ ((Nat.one_le_div_iff (by omega)).mpr h4)
    refine ⟨(startAngle : Int)
      - (((startAngle - stopAngle) / stepAngle : Nat) : Int) * ((stepAngle : Nat) : Int),
      ?_, ?_, ?_⟩
    · rw [hwr, specDescendingWrites]
      exact getLast?_range_map _ _
    · rw [if_neg (by omega)]
      refine ⟨?_, ?_, ?_⟩ <;> (simp only [← Nat.cast_mul]; omega)
    · rw [hwr]
      intro hmem
      simp only [specDescendingWrites, List.mem_map, List.mem_range] at hmem
      obtain ⟨k, hk, hkeq⟩ := hmem
      have hkeq2 : startAngle - k * stepAngle = stopAngle
          ∧ k * stepAngle ≤ startAngle := by
        simp only [← Nat.cast_mul] at hkeq
        omega
      apply hnd
      refine ⟨k, ?_⟩
      rw [Nat.mul_comm]
      omega

/-- Witness for C6 at `servoSweep(0, 180, 50, 15)`: the last write is
`150 = 180 - 180 % 50`, and `180` is never written. -/
theorem servoSweep_no_snapping_witness :
    ((0 : Nat) ≤ 180 ∧ (180 : Nat) ≤ 180 ∧ (1 : Nat) ≤ 50
      ∧ (50 : Nat) ≤ (((180 : Nat) : Int) - ((0 : Nat) : Int)).natAbs
      ∧ ¬ (50 : Nat) ∣ (((180 : Nat) : Int) - ((0 : Nat) : Int)).natAbs)
    ∧ (trWrites (servoSweep 0 180 50 15)).getLast? = some 150
    ∧ (180 : Int) ∉ trWrites (servoSweep 0 180 50 15) := by
  obtain ⟨L, hL1, hL2, hL3⟩ := servoSweep_no_snapping 0 180 50 15 (by decide)
    (by decide) (by decide) (by decide) (by decide)
  rw [if_pos (by decide : (0 : Nat) < 180)] at hL2
  obtain ⟨hLeq, _, _⟩ := hL2
  refine ⟨⟨by decide, by decide, by decide, by decide, by decide⟩, ?_, hL3⟩
  rw [hL1, hLeq]
  decide

/-- C7 counterexample: at `startAngle = stopAngle = 200` the call emits the
`startAngle` error line, not the `stepAngle` one, so the claim as stated
fails for equal angles above 180 (zero writes still hold). -/
theorem servoSweep_equal_angles_cex :
    trPrints (servoSweep 200 200 1 15) = [rangeErr "startAngle" 200]
    ∧ trPrints (servoSweep 200 200 1 15) ≠ [rangeErr "stepAngle" 1]
    ∧ trWrites (servoSweep 200 200 1 15) = [] := by
  refine ⟨rfl, ?_, rfl⟩
  decide

/-- C7 (amended): for `startAngle = stopAngle ≤ 180` and any `stepAngle` and
`stepTime`, `servoSweep` always emits the `stepAngle` out-of-range error and
performs zero writes and zero delays: a sweep to the current angle is
impossible through this interface. -/
theorem servoSweep_equal_angles (a stepAngle stepTime : Nat) (h : a ≤ 180) :
    trPrints (servoSweep a a stepAngle stepTime) = [rangeErr "stepAngle" stepAngle]
    ∧ trWrites (servoSweep a a stepAngle stepTime) = []
    ∧ trWaits (servoSweep a a stepAngle stepTime) = [] := by
  have hstart : ¬ a > 180 := by omega
  have hcond : stepAngle < 1 ∨ stepAngle > ((a : Int) - (a : Int)).natAbs := by
    omega
  rw [servoSweep, if_neg hstart, if_neg hstart, if_pos hcond]
  exact ⟨rfl, rfl, rfl⟩

/-- Witness for the amended C7 at `servoSweep(90, 90, 1, 15)`. -/
theorem servoSweep_equal_angles_witness :
    (90 : Nat) ≤ 180
    ∧ trPrints (servoSweep 90 90 1 15) = [rangeErr "stepAngle" 1]
    ∧ trWrites (servoSweep 90 90 1 15) = [] :=
  ⟨by decide, (servoSweep_equal_angles 90 1 15 (by decide)).1,
    (servoSweep_equal_angles 90 1 15 (by decide)).2.1⟩

end ServoBasic
